import Mathlib

/-!
Verification of the core of `language_dictionary_generator`:
the Cyrillic→Latin transliteration mapper and the word-ingestion pipeline
of `src/book_converter/import_sr_cirilica.py`, shallowly embedded in Lean.

The SQLite store is modelled as explicit state: row lists for the three
tables (`sources`, `words`, `word_sources`) plus the next autoincrement
rowids.  SQL statements become pure functions on that state; a statement
that raises `sqlite3.IntegrityError` is modelled with `Except SqlErr`.
Commits and WAL mode are durability-only in a single pure run and have no
observable effect in the embedding.
-/

namespace DictGen

/-- The `CYR_TO_LAT` dict of `import_sr_cirilica.py` (lines 17-31),
as an association list in the source's entry order. -/
def CYR_TO_LAT : List (Char × String) :=
  [ ('а', "a"), ('б', "b"), ('в', "v"), ('г', "g"), ('д', "d"),
    ('ђ', "đ"), ('е', "e"), ('ж', "ž"), ('з', "z"), ('и', "i"),
    ('ј', "j"), ('к', "k"), ('л', "l"), ('љ', "lj"), ('м', "m"),
    ('н', "n"), ('њ', "nj"), ('о', "o"), ('п', "p"), ('р', "r"),
    ('с', "s"), ('т', "t"), ('ћ', "ć"), ('у', "u"), ('ф', "f"),
    ('х', "h"), ('ц', "c"), ('ч', "č"), ('џ', "dž"), ('ш', "š"),
    ('А', "A"), ('Б', "B"), ('В', "V"), ('Г', "G"), ('Д', "D"),
    ('Ђ', "Đ"), ('Е', "E"), ('Ж', "Ž"), ('З', "Z"), ('И', "I"),
    ('Ј', "J"), ('К', "K"), ('Л', "L"), ('Љ', "Lj"), ('М', "M"),
    ('Н', "N"), ('Њ', "Nj"), ('О', "O"), ('П', "P"), ('Р', "R"),
    ('С', "S"), ('Т', "T"), ('Ћ', "Ć"), ('У', "U"), ('Ф', "F"),
    ('Х', "H"), ('Ц', "C"), ('Ч', "Č"), ('Џ', "Dž"), ('Ш', "Š") ]

/-- `CYR_TO_LAT.get(char)` without a default: `some` of the mapped string
when `char` is a key of the dict, `none` otherwise. -/
def cyrLookup (c : Char) : Option String :=
  (CYR_TO_LAT.find? (fun p => p.1 == c)).map Prod.snd

/-- `transliterate_to_latin` (lines 34-39): per character, substitute via
`CYR_TO_LAT.get(char, char)`, then join the pieces in order. -/
def transliterate_to_latin (word : String) : String :=
  String.join (word.data.map (fun c => (cyrLookup c).getD (String.singleton c)))

/-- Python's `line.strip()`: remove leading and trailing whitespace
characters.  Modelled on the character list, dropping whitespace from
both ends. -/
def pyStrip (s : String) : String :=
  ⟨((s.data.dropWhile Char.isWhitespace).reverse.dropWhile Char.isWhitespace).reverse⟩

/-- A row of the `words` table: `(id, sr_cirilica, sr_latinica)` with
`sr_cirilica UNIQUE NOT NULL`. -/
structure WordRow where
  id : Nat
  sr_cirilica : String
  sr_latinica : String
deriving DecidableEq, Repr

/-- A row of the `sources` table: `(id, file_name)` with `file_name UNIQUE`. -/
structure SourceRow where
  id : Nat
  file_name : String
deriving DecidableEq, Repr

/-- The SQLite database state: the three tables in insertion order, plus the
next autoincrement rowid of each table with a rowid. -/
structure Store where
  sources : List SourceRow
  words : List WordRow
  /-- `word_sources` rows as `(word_id, source_id)` pairs. -/
  wordSources : List (Nat × Nat)
  nextSourceId : Nat
  nextWordId : Nat
deriving DecidableEq, Repr

/-- A fresh database: empty tables, rowids starting at 1 as in SQLite. -/
def Store.empty : Store := ⟨[], [], [], 1, 1⟩

/-- `sqlite3.IntegrityError` causes observable in the model: a `UNIQUE`
constraint violation or (with `PRAGMA foreign_keys=ON`) a `FOREIGN KEY`
constraint violation.  SQLite raises both as `sqlite3.IntegrityError`. -/
inductive SqlErr where
  | uniqueViolation
  | fkViolation
deriving DecidableEq, Repr

/-- `INSERT OR IGNORE INTO sources (file_name) VALUES (?)` (lines 55-58):
no-op when the unique `file_name` is already present, else append a fresh
row. -/
def insertOrIgnoreSource (st : Store) (name : String) : Store :=
  if st.sources.any (fun r => r.file_name = name) then st
  else { st with
    sources := st.sources ++ [⟨st.nextSourceId, name⟩],
    nextSourceId := st.nextSourceId + 1 }

/-- `SELECT id FROM sources WHERE file_name = ?` (lines 60-63): the id of
the first matching row, if any. -/
def lookupSource (st : Store) (name : String) : Option Nat :=
  (st.sources.find? (fun r => r.file_name = name)).map SourceRow.id

/-- The `sr_cirilica UNIQUE` constraint check: is a word row with this
Cyrillic form already present? -/
def containsWord (st : Store) (cyr : String) : Bool :=
  st.words.any (fun r => r.sr_cirilica = cyr)

/-- `INSERT INTO words (sr_cirilica, sr_latinica) VALUES (?, ?)` (line 80):
raises `IntegrityError` on the `sr_cirilica` uniqueness constraint, else
appends a fresh row and yields its rowid (`cursor.lastrowid`, line 84). -/
def insertWord (st : Store) (cyr lat : String) : Except SqlErr (Store × Nat) :=
  if containsWord st cyr then .error .uniqueViolation
  else .ok ({ st with
    words := st.words ++ [⟨st.nextWordId, cyr, lat⟩],
    nextWordId := st.nextWordId + 1 }, st.nextWordId)

/-- `INSERT INTO word_sources (word_id, source_id) VALUES (?, ?)`
(line 85): with `PRAGMA foreign_keys=ON`, raises `IntegrityError` when
either referenced row does not exist, else appends the link. -/
def insertWordSource (st : Store) (wid sid : Nat) : Except SqlErr Store :=
  if st.words.any (fun r => r.id = wid) && st.sources.any (fun r => r.id = sid) then
    .ok { st with wordSources := st.wordSources ++ [(wid, sid)] }
  else .error .fkViolation

/-- Per-run summary counters of `import_words`. -/
structure ImportSummary where
  total : Nat
  inserted : Nat
  skipped : Nat
deriving DecidableEq, Repr

/-- The word loop of `import_words` (lines 70-93): per line, strip, skip if
empty, transliterate, then `try` the word insert followed by the
word-source insert; `except sqlite3.IntegrityError` from either statement
increments `skipped`, success increments `inserted`.  Note that when the
word insert succeeded and the link insert raised, the word row stays (no
rollback in the `except` clause).  Batch commits (lines 93-95) are
durability-only and have no effect on the state. -/
def importLoop (sid : Nat) : List String → Store → ImportSummary → Store × ImportSummary
  | [], st, s => (st, s)
  | line :: rest, st, s =>
    let word_cyr := pyStrip line
    if word_cyr.data.isEmpty then importLoop sid rest st s
    else
      let word_lat := transliterate_to_latin word_cyr
      match insertWord st word_cyr word_lat with
      | .error _ =>
        importLoop sid rest st
          { s with total := s.total + 1, skipped := s.skipped + 1 }
      | .ok (st1, wid) =>
        match insertWordSource st1 wid sid with
        | .error _ =>
          importLoop sid rest st1
            { s with total := s.total + 1, skipped := s.skipped + 1 }
        | .ok st2 =>
          importLoop sid rest st2
            { s with total := s.total + 1, inserted := s.inserted + 1 }

/-- Outcome of one `import_words` run.  The early return of lines 44-46
(print `Error: Source file not found`, return without opening the
database) is the `sourceNotFound` outcome; a completed run reports the
source id and the summary counters it prints. -/
inductive ImportResult where
  | sourceNotFound
  | completed (sourceId : Nat) (summary : ImportSummary)
deriving DecidableEq, Repr

/-- `import_words` (lines 42-107).  `fileExists` abstracts
`SOURCE_PATH.exists()`; `lines` are the lines of the source file.  When the
file exists: register the source (insert-or-ignore, then select its id —
the select always succeeds, so the `getD 0` default is never used), run the
word loop, and report the summary.  Returns the outcome together with the
final database state. -/
def import_words (fileExists : Bool) (lines : List String) (sourceName : String)
    (st : Store) : ImportResult × Store :=
  if !fileExists then (.sourceNotFound, st)
  else
    let st1 := insertOrIgnoreSource st sourceName
    let source_id := (lookupSource st1 sourceName).getD 0
    let r := importLoop source_id lines st1 ⟨0, 0, 0⟩
    (.completed source_id r.2, r.1)

/-- Number of lines of the input that the loop processes (counts toward
`total`): those whose stripped form is non-empty. -/
def processedCount (lines : List String) : Nat :=
  (lines.filter (fun l => !(pyStrip l).data.isEmpty)).length

/-- All word-row ids of the store are below the next autoincrement id —
true of every state SQLite can be in. -/
def Store.wfWords (st : Store) : Prop :=
  ∀ r ∈ st.words, r.id < st.nextWordId

/-- How a word-loop run with source id `sid` relates its initial store
`st` to its final store `stR`: sources untouched; word rows and links only
appended; appended word rows carry fresh ids and Cyrillic forms absent
from `st`; appended links point at the run's source and at fresh word
ids; uniqueness of Cyrillic forms is preserved. -/
def LoopSpec (sid : Nat) (st stR : Store) : Prop :=
  stR.sources = st.sources ∧
  stR.nextSourceId = st.nextSourceId ∧
  st.nextWordId ≤ stR.nextWordId ∧
  (∃ ws, stR.words = st.words ++ ws ∧
    ∀ w ∈ ws, st.nextWordId ≤ w.id ∧ w.id < stR.nextWordId ∧
      containsWord st w.sr_cirilica = false) ∧
  (∃ ls, stR.wordSources = st.wordSources ++ ls ∧
    ∀ l ∈ ls, l.2 = sid ∧ st.nextWordId ≤ l.1) ∧
  ((st.words.map WordRow.sr_cirilica).Nodup →
    (stR.words.map WordRow.sr_cirilica).Nodup)

/-- Exception classes distinguishable by the `except` clause of
`import_words`: `sqlite3.IntegrityError` versus any other exception a
statement may raise (disk full, corrupted store, ...). -/
inductive PyExc where
  | integrityError
  | otherError
deriving DecidableEq, Repr

/-- Outcome of one statement inside the `try` block: a value, or a raised
exception. -/
def Stmt (α : Type) := Except PyExc α

/-- What one iteration of the loop records for its word. -/
inductive StepOutcome where
  | insertedWord
  | skippedWord
deriving DecidableEq, Repr

/-- Control flow of the `try`/`except` block (lines 79-91), abstracted over
the outcome of each of its two statements: run the word insert, then on
success the word-source insert; `sqlite3.IntegrityError` raised by EITHER
statement is caught by the single `except sqlite3.IntegrityError` clause
and counted as skipped; any other exception propagates out of
`import_words`. -/
def tryBlock (wordInsert : Stmt Nat) (linkInsert : Nat → Stmt Unit) :
    Except PyExc StepOutcome :=
  match wordInsert with
  | .error .integrityError => .ok .skippedWord
  | .error .otherError => .error .otherError
  | .ok wid =>
    match linkInsert wid with
    | .error .integrityError => .ok .skippedWord
    | .error .otherError => .error .otherError
    | .ok _ => .ok .insertedWord

/-! ### Mapper lemmas -/

/-- Character data of a transliteration: the in-order concatenation of the
per-character substitutions. -/
lemma transliterate_data (w : String) :
    (transliterate_to_latin w).data
      = (w.data.map (fun c => ((cyrLookup c).getD (String.singleton c)).data)).flatten := by
  simp [transliterate_to_latin, String.join_eq, List.map_map, Function.comp_def]

/-- The mapper is a homomorphism for string concatenation. -/
lemma transliterate_append (s t : String) :
    transliterate_to_latin (s ++ t)
      = transliterate_to_latin s ++ transliterate_to_latin t := by
  apply String.ext
  simp [transliterate_data, String.data_append, List.flatten_append]

/-- Every per-character substitution has length 1 or 2. -/
lemma piece_length (c : Char) :
    1 ≤ ((cyrLookup c).getD (String.singleton c)).length ∧
    ((cyrLookup c).getD (String.singleton c)).length ≤ 2 := by
  unfold cyrLookup
  cases h : CYR_TO_LAT.find? (fun p => p.1 == c) with
  | none => simp [String.length]
  | some p =>
    have hp : p ∈ CYR_TO_LAT := List.mem_of_find?_eq_some h
    have hall : ∀ q ∈ CYR_TO_LAT, 1 ≤ q.2.length ∧ q.2.length ≤ 2 := by decide
    simpa using hall p hp

/-- A character outside the mapping table transliterates to itself. -/
lemma transliterate_singleton_unmapped (c : Char) (h : cyrLookup c = none) :
    transliterate_to_latin (String.singleton c) = String.singleton c := by
  apply String.ext
  rw [transliterate_data]
  show ([c].map _).flatten = [c]
  simp [h]

/-- Sum of a list of numbers each between 1 and 2 is between the length
and twice the length. -/
lemma sum_bounds (l : List Nat) (h : ∀ x ∈ l, 1 ≤ x ∧ x ≤ 2) :
    l.length ≤ l.sum ∧ l.sum ≤ 2 * l.length := by
  induction l with
  | nil => simp
  | cons a l ih =>
    have ha := h a (by simp)
    have ih' := ih (fun x hx => h x (by simp [hx]))
    simp only [List.sum_cons, List.length_cons]
    omega

/-! ### Mapper claim theorems -/

/-- C7: the mapping table has exactly 60 entries, and every character `c`
that is not a key of it satisfies `transliterate(c) == c`; in general an
unmapped character of any input passes through unchanged in its original
position. -/
theorem claim_C7_passthrough :
    CYR_TO_LAT.length = 60 ∧
    (∀ c : Char, cyrLookup c = none →
      transliterate_to_latin (String.singleton c) = String.singleton c) ∧
    (∀ (s t : String) (c : Char), cyrLookup c = none →
      transliterate_to_latin (s ++ String.singleton c ++ t)
        = transliterate_to_latin s ++ String.singleton c ++ transliterate_to_latin t) := by
  refine ⟨by decide, fun c h => transliterate_singleton_unmapped c h, ?_⟩
  intro s t c h
  rw [transliterate_append, transliterate_append, transliterate_singleton_unmapped c h]

/-- Witness for C7 at the concrete unmapped character `x`. -/
theorem claim_C7_witness :
    transliterate_to_latin (String.singleton 'x') = String.singleton 'x' ∧
    transliterate_to_latin ("a" ++ String.singleton 'x' ++ "b")
      = transliterate_to_latin "a" ++ String.singleton 'x' ++ transliterate_to_latin "b" :=
  ⟨claim_C7_passthrough.2.1 'x' (by decide),
   claim_C7_passthrough.2.2 "a" "b" 'x' (by decide)⟩

/-- C8: the fixed multi-character expansions, and the concrete example
`transliterate("ниш") == "niš"`. -/
theorem claim_C8_multichar :
    transliterate_to_latin "љ" = "lj" ∧
    transliterate_to_latin "Љ" = "Lj" ∧
    transliterate_to_latin "џ" = "dž" ∧
    transliterate_to_latin "ниш" = "niš" := by
  refine ⟨by decide, by decide, by decide, by decide⟩

/-- C9: the mapper is a string homomorphism, maps the empty string to the
empty string, and its output length lies between the input length and
twice the input length. -/
theorem claim_C9_homomorphism :
    (∀ s t : String,
      transliterate_to_latin (s ++ t)
        = transliterate_to_latin s ++ transliterate_to_latin t) ∧
    transliterate_to_latin "" = "" ∧
    (∀ s : String,
      s.length ≤ (transliterate_to_latin s).length ∧
      (transliterate_to_latin s).length ≤ 2 * s.length) := by
  refine ⟨transliterate_append, rfl, ?_⟩
  intro s
  have hlen : (transliterate_to_latin s).length
      = (s.data.map
          (fun c => ((cyrLookup c).getD (String.singleton c)).data.length)).sum := by
    show (transliterate_to_latin s).data.length = _
    rw [transliterate_data, List.length_flatten, List.map_map]
    rfl
  have hb := sum_bounds (s.data.map
      (fun c => ((cyrLookup c).getD (String.singleton c)).data.length)) ?_
  · have hsl : s.length = (s.data.map
        (fun c => ((cyrLookup c).getD (String.singleton c)).data.length)).length := by
      rw [List.length_map]
      rfl
    rw [hlen, hsl]
    exact hb
  · intro x hx
    rcases List.mem_map.mp hx with ⟨c, _, rfl⟩
    exact piece_length c

/-! ### Pipeline lemmas -/

/-- `LoopSpec` is reflexive: doing nothing is a legal run effect. -/
lemma LoopSpec.rfl (sid : Nat) (st : Store) : LoopSpec sid st st :=
  ⟨by rfl, by rfl, le_refl _, ⟨[], by simp, by simp⟩, ⟨[], by simp, by simp⟩, id⟩

/-- Word presence is monotone under appending word rows. -/
lemma containsWord_mono {st st' : Store} (hw : ∃ ws, st'.words = st.words ++ ws)
    {x : String} (h : containsWord st x = true) : containsWord st' x = true := by
  rcases hw with ⟨ws, hws⟩
  unfold containsWord at h ⊢
  rw [hws, List.any_append, h]
  rfl

/-- A word is present iff its Cyrillic form occurs among the word rows. -/
lemma containsWord_iff_mem {st : Store} {x : String} :
    containsWord st x = true ↔ x ∈ st.words.map WordRow.sr_cirilica := by
  unfold containsWord
  simp only [List.any_eq_true, decide_eq_true_eq, List.mem_map]

/-- A word is absent iff its Cyrillic form does not occur among the word
rows. -/
lemma containsWord_eq_false_iff {st : Store} {x : String} :
    containsWord st x = false ↔ x ∉ st.words.map WordRow.sr_cirilica := by
  rw [← containsWord_iff_mem]
  cases containsWord st x <;> simp

/-- `LoopSpec` composes transitively. -/
lemma LoopSpec.trans {sid : Nat} {st st' st'' : Store}
    (h1 : LoopSpec sid st st') (h2 : LoopSpec sid st' st'') :
    LoopSpec sid st st'' := by
  obtain ⟨hs1, hn1, hw1, ⟨ws1, hws1, hwp1⟩, ⟨ls1, hls1, hlp1⟩, hnd1⟩ := h1
  obtain ⟨hs2, hn2, hw2, ⟨ws2, hws2, hwp2⟩, ⟨ls2, hls2, hlp2⟩, hnd2⟩ := h2
  refine ⟨hs2.trans hs1, hn2.trans hn1, le_trans hw1 hw2,
    ⟨ws1 ++ ws2, ?_, ?_⟩, ⟨ls1 ++ ls2, ?_, ?_⟩, fun h => hnd2 (hnd1 h)⟩
  · rw [hws2, hws1, List.append_assoc]
  · intro w hw
    rcases List.mem_append.mp hw with h | h
    · obtain ⟨ha, hb, hc⟩ := hwp1 w h
      exact ⟨ha, lt_of_lt_of_le hb hw2, hc⟩
    · obtain ⟨ha, hb, hc⟩ := hwp2 w h
      refine ⟨le_trans hw1 ha, hb, ?_⟩
      cases hcc : containsWord st w.sr_cirilica with
      | false => rfl
      | true =>
        have := containsWord_mono ⟨ws1, hws1⟩ hcc
        rw [hc] at this
        exact Bool.noConfusion this
  · rw [hls2, hls1, List.append_assoc]
  · intro l hl
    rcases List.mem_append.mp hl with h | h
    · exact hlp1 l h
    · obtain ⟨ha, hb⟩ := hlp2 l h
      exact ⟨ha, le_trans hw1 hb⟩

/-- A successful word-source insert only appends the link. -/
lemma insertWordSource_ok {st : Store} {wid sid : Nat} {st' : Store}
    (h : insertWordSource st wid sid = .ok st') :
    st' = { st with wordSources := st.wordSources ++ [(wid, sid)] } := by
  unfold insertWordSource at h
  split at h
  · injection h with h
    exact h.symm
  · cases h

/-- The effect of inserting one fresh word row satisfies `LoopSpec`
(with no link row). -/
lemma LoopSpec.insertWordStep {st : Store} (sid : Nat) {cyr : String} (lat : String)
    (hc : containsWord st cyr = false) :
    LoopSpec sid st
      { st with words := st.words ++ [⟨st.nextWordId, cyr, lat⟩],
                nextWordId := st.nextWordId + 1 } := by
  refine ⟨by rfl, by rfl, Nat.le_succ _, ⟨[⟨st.nextWordId, cyr, lat⟩], by rfl, ?_⟩,
    ⟨[], by simp, by simp⟩, ?_⟩
  · intro w hw
    rw [List.mem_singleton] at hw
    subst hw
    exact ⟨le_refl _, Nat.lt_succ_self _, hc⟩
  · intro h
    rw [List.map_append]
    rw [List.nodup_append]
    refine ⟨h, by simp, ?_⟩
    intro x hx hx'
    simp only [List.map_cons, List.map_nil, List.mem_singleton] at hx'
    subst hx'
    exact absurd hx (containsWord_eq_false_iff.mp hc)


/-- The effect of inserting one fresh word row together with its
word-source link satisfies `LoopSpec`. -/
lemma LoopSpec.insertLinkStep {st : Store} (sid : Nat) {cyr : String} (lat : String)
    (hc : containsWord st cyr = false) :
    LoopSpec sid st
      { st with words := st.words ++ [⟨st.nextWordId, cyr, lat⟩],
                nextWordId := st.nextWordId + 1,
                wordSources := st.wordSources ++ [(st.nextWordId, sid)] } := by
  obtain ⟨h1, h2, h3, h4, _, h6⟩ := LoopSpec.insertWordStep sid lat hc
  refine ⟨h1, h2, h3, h4, ⟨[(st.nextWordId, sid)], by rfl, ?_⟩, h6⟩
  intro l hl
  rw [List.mem_singleton] at hl
  subst hl
  exact ⟨by rfl, le_refl _⟩

/-- The word loop's effect on the store satisfies `LoopSpec`. -/
lemma importLoop_spec (sid : Nat) (lines : List String) (st : Store) (s : ImportSummary) :
    LoopSpec sid st (importLoop sid lines st s).1 := by
  induction lines generalizing st s with
  | nil => exact LoopSpec.rfl sid st
  | cons line rest ih =>
    by_cases he : (pyStrip line).data.isEmpty = true
    · have hred : importLoop sid (line :: rest) st s = importLoop sid rest st s := by
        simp [importLoop, he]
      rw [hred]
      exact ih st s
    · rw [Bool.not_eq_true] at he
      by_cases hc : containsWord st (pyStrip line) = true
      · have hred : importLoop sid (line :: rest) st s
            = importLoop sid rest st
                { s with total := s.total + 1, skipped := s.skipped + 1 } := by
          simp [importLoop, he, insertWord, hc]
        rw [hred]
        exact ih st _
      · rw [Bool.not_eq_true] at hc
        cases hfk : (insertWordSource
            { st with
              words := st.words ++ [⟨st.nextWordId, pyStrip line,
                transliterate_to_latin (pyStrip line)⟩],
              nextWordId := st.nextWordId + 1 }
            st.nextWordId sid) with
        | error e =>
          have hred : importLoop sid (line :: rest) st s
              = importLoop sid rest
                  { st with
                    words := st.words ++ [⟨st.nextWordId, pyStrip line,
                      transliterate_to_latin (pyStrip line)⟩],
                    nextWordId := st.nextWordId + 1 }
                  { s with total := s.total + 1, skipped := s.skipped + 1 } := by
            simp [importLoop, he, insertWord, hc, hfk]
          rw [hred]
          exact (LoopSpec.insertWordStep sid _ hc).trans (ih _ _)
        | ok st2 =>
          have hst2 := insertWordSource_ok hfk
          have hred : importLoop sid (line :: rest) st s
              = importLoop sid rest st2
                  { s with total := s.total + 1, inserted := s.inserted + 1 } := by
            simp [importLoop, he, insertWord, hc, hfk]
          rw [hred]
          refine LoopSpec.trans ?_ (ih st2 _)
          rw [hst2]
          exact LoopSpec.insertLinkStep sid _ hc

/-- Counter arithmetic of the loop: `total` grows by the number of
non-blank lines, and so does `inserted + skipped`. -/
lemma importLoop_counts (sid : Nat) (lines : List String) (st : Store) (s : ImportSummary) :
    (importLoop sid lines st s).2.total = s.total + processedCount lines ∧
    (importLoop sid lines st s).2.inserted + (importLoop sid lines st s).2.skipped
      = s.inserted + s.skipped + processedCount lines := by
  induction lines generalizing st s with
  | nil => simp [importLoop, processedCount]
  | cons line rest ih =>
    by_cases he : (pyStrip line).data.isEmpty = true
    · have hpc : processedCount (line :: rest) = processedCount rest := by
        simp [processedCount, he]
      have hred : importLoop sid (line :: rest) st s = importLoop sid rest st s := by
        simp [importLoop, he]
      rw [hred, hpc]
      exact ih st s
    · rw [Bool.not_eq_true] at he
      have hpc : processedCount (line :: rest) = processedCount rest + 1 := by
        simp [processedCount, he]
      by_cases hc : containsWord st (pyStrip line) = true
      · have hred : importLoop sid (line :: rest) st s
            = importLoop sid rest st
                { s with total := s.total + 1, skipped := s.skipped + 1 } := by
          simp [importLoop, he, insertWord, hc]
        rw [hred, hpc]
        obtain ⟨h1, h2⟩ := ih st { s with total := s.total + 1, skipped := s.skipped + 1 }
        dsimp only at h1 h2
        omega
      · rw [Bool.not_eq_true] at hc
        cases hfk : (insertWordSource
            { st with
              words := st.words ++ [⟨st.nextWordId, pyStrip line,
                transliterate_to_latin (pyStrip line)⟩],
              nextWordId := st.nextWordId + 1 }
            st.nextWordId sid) with
        | error e =>
          have hred : importLoop sid (line :: rest) st s
              = importLoop sid rest
                  { st with
                    words := st.words ++ [⟨st.nextWordId, pyStrip line,
                      transliterate_to_latin (pyStrip line)⟩],
                    nextWordId := st.nextWordId + 1 }
                  { s with total := s.total + 1, skipped := s.skipped + 1 } := by
            simp [importLoop, he, insertWord, hc, hfk]
          rw [hred, hpc]
          obtain ⟨h1, h2⟩ := ih
            { st with
              words := st.words ++ [⟨st.nextWordId, pyStrip line,
                transliterate_to_latin (pyStrip line)⟩],
              nextWordId := st.nextWordId + 1 }
            { s with total := s.total + 1, skipped := s.skipped + 1 }
          dsimp only at h1 h2
          omega
        | ok st2 =>
          have hred : importLoop sid (line :: rest) st s
              = importLoop sid rest st2
                  { s with total := s.total + 1, inserted := s.inserted + 1 } := by
            simp [importLoop, he, insertWord, hc, hfk]
          rw [hred, hpc]
          obtain ⟨h1, h2⟩ := ih st2 { s with total := s.total + 1, inserted := s.inserted + 1 }
          dsimp only at h1 h2
          omega

/-- Word presence is preserved by the loop. -/
lemma importLoop_contains_mono (sid : Nat) (lines : List String) (st : Store)
    (s : ImportSummary) {x : String} (h : containsWord st x = true) :
    containsWord (importLoop sid lines st s).1 x = true := by
  obtain ⟨_, _, _, ⟨ws, hws, _⟩, _, _⟩ := importLoop_spec sid lines st s
  exact containsWord_mono ⟨ws, hws⟩ h

/-- After the loop, every non-blank line's stripped word is present. -/
lemma importLoop_contains (sid : Nat) (lines : List String) (st : Store) (s : ImportSummary)
    {l : String} (hl : l ∈ lines) (hne : (pyStrip l).data.isEmpty = false) :
    containsWord (importLoop sid lines st s).1 (pyStrip l) = true := by
  induction lines generalizing st s with
  | nil => cases hl
  | cons line rest ih =>
    rcases List.mem_cons.mp hl with rfl | hl'
    · by_cases hc : containsWord st (pyStrip l) = true
      · have hred : importLoop sid (l :: rest) st s
            = importLoop sid rest st
                { s with total := s.total + 1, skipped := s.skipped + 1 } := by
          simp [importLoop, hne, insertWord, hc]
        rw [hred]
        exact importLoop_contains_mono sid rest st _ hc
      · rw [Bool.not_eq_true] at hc
        have hin : containsWord
            { st with
              words := st.words ++ [⟨st.nextWordId, pyStrip l,
                transliterate_to_latin (pyStrip l)⟩],
              nextWordId := st.nextWordId + 1 } (pyStrip l) = true := by
          unfold containsWord
          simp [List.any_append]
        cases hfk : (insertWordSource
            { st with
              words := st.words ++ [⟨st.nextWordId, pyStrip l,
                transliterate_to_latin (pyStrip l)⟩],
              nextWordId := st.nextWordId + 1 }
            st.nextWordId sid) with
        | error e =>
          have hred : importLoop sid (l :: rest) st s
              = importLoop sid rest
                  { st with
                    words := st.words ++ [⟨st.nextWordId, pyStrip l,
                      transliterate_to_latin (pyStrip l)⟩],
                    nextWordId := st.nextWordId + 1 }
                  { s with total := s.total + 1, skipped := s.skipped + 1 } := by
            simp [importLoop, hne, insertWord, hc, hfk]
          rw [hred]
          exact importLoop_contains_mono sid rest _ _ hin
        | ok st2 =>
          have hst2 := insertWordSource_ok hfk
          have hred : importLoop sid (l :: rest) st s
              = importLoop sid rest st2
                  { s with total := s.total + 1, inserted := s.inserted + 1 } := by
            simp [importLoop, hne, insertWord, hc, hfk]
          rw [hred]
          refine importLoop_contains_mono sid rest st2 _ ?_
          rw [hst2]
          exact hin
    · by_cases he : (pyStrip line).data.isEmpty = true
      · have hred : importLoop sid (line :: rest) st s = importLoop sid rest st s := by
          simp [importLoop, he]
        rw [hred]
        exact ih st s hl'
      · rw [Bool.not_eq_true] at he
        by_cases hc : containsWord st (pyStrip line) = true
        · have hred : importLoop sid (line :: rest) st s
              = importLoop sid rest st
                  { s with total := s.total + 1, skipped := s.skipped + 1 } := by
            simp [importLoop, he, insertWord, hc]
          rw [hred]
          exact ih st _ hl'
        · rw [Bool.not_eq_true] at hc
          cases hfk : (insertWordSource
              { st with
                words := st.words ++ [⟨st.nextWordId, pyStrip line,
                  transliterate_to_latin (pyStrip line)⟩],
                nextWordId := st.nextWordId + 1 }
              st.nextWordId sid) with
          | error e =>
            have hred : importLoop sid (line :: rest) st s
                = importLoop sid rest
                    { st with
                      words := st.words ++ [⟨st.nextWordId, pyStrip line,
                        transliterate_to_latin (pyStrip line)⟩],
                      nextWordId := st.nextWordId + 1 }
                    { s with total := s.total + 1, skipped := s.skipped + 1 } := by
              simp [importLoop, he, insertWord, hc, hfk]
            rw [hred]
            exact ih _ _ hl'
          | ok st2 =>
            have hred : importLoop sid (line :: rest) st s
                = importLoop sid rest st2
                    { s with total := s.total + 1, inserted := s.inserted + 1 } := by
              simp [importLoop, he, insertWord, hc, hfk]
            rw [hred]
            exact ih st2 _ hl'

/-- When every non-blank line's word is already present, the loop leaves
the store unchanged and counts every processed line as skipped. -/
lemma importLoop_all_present (sid : Nat) (lines : List String) (st : Store)
    (s : ImportSummary)
    (h : ∀ l ∈ lines, (pyStrip l).data.isEmpty = false → containsWord st (pyStrip l) = true) :
    importLoop sid lines st s
      = (st, { s with total := s.total + processedCount lines,
                      skipped := s.skipped + processedCount lines }) := by
  induction lines generalizing s with
  | nil => simp [importLoop, processedCount]
  | cons line rest ih =>
    by_cases he : (pyStrip line).data.isEmpty = true
    · have hred : importLoop sid (line :: rest) st s = importLoop sid rest st s := by
        simp [importLoop, he]
      have hpc : processedCount (line :: rest) = processedCount rest := by
        simp [processedCount, he]
      rw [hred, hpc, ih s (fun l hl hne => h l (List.mem_cons_of_mem _ hl) hne)]
    · rw [Bool.not_eq_true] at he
      have hc : containsWord st (pyStrip line) = true :=
        h line (List.mem_cons_self line rest) he
      have hred : importLoop sid (line :: rest) st s
          = importLoop sid rest st
              { s with total := s.total + 1, skipped := s.skipped + 1 } := by
        simp [importLoop, he, insertWord, hc]
      have hpc : processedCount (line :: rest) = processedCount rest + 1 := by
        simp [processedCount, he]
      rw [hred, hpc,
        ih { s with total := s.total + 1, skipped := s.skipped + 1 }
          (fun l hl hne => h l (List.mem_cons_of_mem _ hl) hne)]
      simp only [Prod.mk.injEq, ImportSummary.mk.injEq, true_and]
      omega

/-- Well-formedness of word ids is preserved by the loop. -/
lemma importLoop_wfWords {st : Store} (sid : Nat) (lines : List String)
    (s : ImportSummary) (h : st.wfWords) : (importLoop sid lines st s).1.wfWords := by
  obtain ⟨_, _, hnw, ⟨ws, hws, hwp⟩, _, _⟩ := importLoop_spec sid lines st s
  intro r hr
  rw [hws] at hr
  rcases List.mem_append.mp hr with h' | h'
  · exact lt_of_lt_of_le (h r h') hnw
  · exact (hwp r h').2.1

/-- Registering a source touches neither word rows nor links nor the next
word id. -/
lemma insertOrIgnoreSource_words (st : Store) (name : String) :
    (insertOrIgnoreSource st name).words = st.words ∧
    (insertOrIgnoreSource st name).wordSources = st.wordSources ∧
    (insertOrIgnoreSource st name).nextWordId = st.nextWordId := by
  unfold insertOrIgnoreSource
  split <;> exact ⟨by rfl, by rfl, by rfl⟩

/-- After registering, a row with the source's name is present. -/
lemma insertOrIgnoreSource_present (st : Store) (name : String) :
    (insertOrIgnoreSource st name).sources.any (fun r => r.file_name = name) = true := by
  unfold insertOrIgnoreSource
  by_cases h : st.sources.any (fun r => r.file_name = name) = true
  · rw [if_pos h]
    exact h
  · rw [Bool.not_eq_true] at h
    rw [if_neg (by rw [h]; exact Bool.false_ne_true)]
    simp [List.any_append]

/-- Registering an already-present source is a no-op. -/
lemma insertOrIgnoreSource_of_present (st : Store) (name : String)
    (h : st.sources.any (fun r => r.file_name = name) = true) :
    insertOrIgnoreSource st name = st := by
  unfold insertOrIgnoreSource
  rw [if_pos h]

/-- Unfolding of a run on an existing file. -/
lemma import_words_true_eq (lines : List String) (name : String) (st : Store) :
    import_words true lines name st
      = (.completed ((lookupSource (insertOrIgnoreSource st name) name).getD 0)
          (importLoop ((lookupSource (insertOrIgnoreSource st name) name).getD 0) lines
            (insertOrIgnoreSource st name) ⟨0, 0, 0⟩).2,
         (importLoop ((lookupSource (insertOrIgnoreSource st name) name).getD 0) lines
            (insertOrIgnoreSource st name) ⟨0, 0, 0⟩).1) := rfl

/-! ### Pipeline claim theorems -/

/-- C1: every completed run's summary satisfies
`total == inserted + skipped`; both sides equal the number of processed
(non-blank) lines, so each processed word is counted in exactly one of
`inserted` and `skipped`. -/
theorem claim_C1_count_invariant (lines : List String) (name : String) (st : Store)
    (sid : Nat) (sum : ImportSummary) (stR : Store)
    (h : import_words true lines name st = (.completed sid sum, stR)) :
    sum.total = sum.inserted + sum.skipped ∧
    sum.total = processedCount lines ∧
    sum.inserted + sum.skipped = processedCount lines := by
  rw [import_words_true_eq] at h
  injection h with ha hb
  injection ha with ha1 ha2
  obtain ⟨h1, h2⟩ := importLoop_counts
    ((lookupSource (insertOrIgnoreSource st name) name).getD 0) lines
    (insertOrIgnoreSource st name) ⟨0, 0, 0⟩
  rw [ha2] at h1 h2
  dsimp only at h1 h2
  omega

/-- C1 witness: the scenario file yields `total = 3 = 2 + 1`. -/
theorem claim_C1_witness :
    (⟨3, 2, 1⟩ : ImportSummary).total
        = (⟨3, 2, 1⟩ : ImportSummary).inserted + (⟨3, 2, 1⟩ : ImportSummary).skipped ∧
    (⟨3, 2, 1⟩ : ImportSummary).total = processedCount ["мама", "", "тата", "мама"] ∧
    (⟨3, 2, 1⟩ : ImportSummary).inserted + (⟨3, 2, 1⟩ : ImportSummary).skipped
        = processedCount ["мама", "", "тата", "мама"] :=
  claim_C1_count_invariant ["мама", "", "тата", "мама"] "s" Store.empty 1 ⟨3, 2, 1⟩
    ⟨[⟨1, "s"⟩], [⟨1, "мама", "mama"⟩, ⟨2, "тата", "tata"⟩], [(1, 1), (2, 1)], 2, 3⟩
    (by decide)

/-- C3: when the source path does not exist, the run ends in the
`sourceNotFound` outcome (the fatal, reported, not-retried error path of
lines 44-46). -/
theorem claim_C3_source_not_found (lines : List String) (name : String) (st : Store) :
    (import_words false lines name st).1 = ImportResult.sourceNotFound := rfl

/-- C10: when the source path does not exist, the run returns at once and
the store is exactly unchanged — no source registered, no word or link
written. -/
theorem claim_C10_store_untouched (lines : List String) (name : String) (st : Store) :
    import_words false lines name st = (ImportResult.sourceNotFound, st) := rfl

/-- C6: the end-to-end scenario: lines `мама`, blank, `тата`, `мама` give
`total = 3`, `inserted = 2`, `skipped = 1`, and the words table holds
exactly `мама→mama` and `тата→tata`. -/
theorem claim_C6_end_to_end :
    (import_words true ["мама", "", "тата", "мама"] "sr_cirilica_262000.txt"
        Store.empty).1
      = ImportResult.completed 1 ⟨3, 2, 1⟩ ∧
    (import_words true ["мама", "", "тата", "мама"] "sr_cirilica_262000.txt"
        Store.empty).2.words
      = [⟨1, "мама", "mama"⟩, ⟨2, "тата", "tata"⟩] :=
  ⟨by decide, by decide⟩

/-- C2: re-running the import on the same lines and source name inserts
nothing: the second run reports `inserted = 0` and `skipped = total`, the
store is unchanged, and the same Source row (same id, no duplicate) is
reused. -/
theorem claim_C2_idempotent (lines : List String) (name : String) (st : Store)
    (sid1 : Nat) (sum1 : ImportSummary) (st1 : Store)
    (sid2 : Nat) (sum2 : ImportSummary) (st2 : Store)
    (h1 : import_words true lines name st = (.completed sid1 sum1, st1))
    (h2 : import_words true lines name st1 = (.completed sid2 sum2, st2)) :
    sum2.inserted = 0 ∧ sum2.skipped = sum2.total ∧ st2 = st1 ∧ sid2 = sid1 := by
  rw [import_words_true_eq] at h1 h2
  injection h1 with h1a h1b
  injection h1a with h1s h1m
  subst h1s
  have hsources : st1.sources = (insertOrIgnoreSource st name).sources := by
    rw [← h1b]
    exact (importLoop_spec _ lines (insertOrIgnoreSource st name) ⟨0, 0, 0⟩).1
  have hpres : st1.sources.any (fun r => r.file_name = name) = true := by
    rw [hsources]
    exact insertOrIgnoreSource_present st name
  have hio : insertOrIgnoreSource st1 name = st1 :=
    insertOrIgnoreSource_of_present _ _ hpres
  have hlook : lookupSource st1 name
      = lookupSource (insertOrIgnoreSource st name) name := by
    unfold lookupSource
    rw [hsources]
  have hcont : ∀ l ∈ lines, (pyStrip l).data.isEmpty = false →
      containsWord st1 (pyStrip l) = true := by
    intro l hl hne
    rw [← h1b]
    exact importLoop_contains _ lines _ ⟨0, 0, 0⟩ hl hne
  rw [hio, hlook] at h2
  rw [importLoop_all_present _ lines st1 ⟨0, 0, 0⟩ hcont] at h2
  injection h2 with h2a h2b
  injection h2a with h2s h2m
  refine ⟨?_, ?_, h2b.symm, h2s.symm⟩
  · rw [← h2m]
  · rw [← h2m]

/-- C2 witness: the concrete double run on one word. -/
theorem claim_C2_witness :
    (⟨1, 0, 1⟩ : ImportSummary).inserted = 0 ∧
    (⟨1, 0, 1⟩ : ImportSummary).skipped = (⟨1, 0, 1⟩ : ImportSummary).total ∧
    (⟨[⟨1, "s"⟩], [⟨1, "мама", "mama"⟩], [(1, 1)], 2, 2⟩ : Store)
      = ⟨[⟨1, "s"⟩], [⟨1, "мама", "mama"⟩], [(1, 1)], 2, 2⟩ ∧
    (1 : Nat) = 1 :=
  claim_C2_idempotent ["мама"] "s" Store.empty 1 ⟨1, 1, 0⟩
    ⟨[⟨1, "s"⟩], [⟨1, "мама", "mama"⟩], [(1, 1)], 2, 2⟩ 1 ⟨1, 0, 1⟩
    ⟨[⟨1, "s"⟩], [⟨1, "мама", "mama"⟩], [(1, 1)], 2, 2⟩ (by decide) (by decide)

/-- C5 counterexample: a referential-integrity failure on the WordSource
insert does NOT propagate.  In the `try` block, an `IntegrityError` from
the link insert is caught and counted as skipped (`tryBlock` conjunct);
concretely, running the loop body with a nonexistent source id 99 hits a
foreign-key `IntegrityError` on the link insert, yet the run continues
normally, counts the word as skipped, and keeps the word row. -/
theorem claim_C5_counterexample :
    tryBlock (.ok 1) (fun _ => .error .integrityError) = .ok .skippedWord ∧
    insertWordSource ⟨[], [⟨1, "а", "a"⟩], [], 1, 2⟩ 1 99
      = .error .fkViolation ∧
    importLoop 99 ["а"] Store.empty ⟨0, 0, 0⟩
      = (⟨[], [⟨1, "а", "a"⟩], [], 1, 2⟩, ⟨1, 0, 1⟩) :=
  ⟨rfl, rfl, by decide⟩

/-- C5 (amended): the single `except sqlite3.IntegrityError` clause spans
both statements of the `try` block, so every `IntegrityError` — the
uniqueness violation on the Word insert AND a referential-integrity
failure on the WordSource insert — is absorbed and counted as skipped;
only non-`IntegrityError` exceptions propagate, and then only when one of
the two statements raised one. -/
theorem claim_C5_amended :
    (∀ k : Nat → Stmt Unit,
      tryBlock (.error .integrityError) k = .ok .skippedWord) ∧
    (∀ (wid : Nat) (k : Nat → Stmt Unit), k wid = .error .integrityError →
      tryBlock (.ok wid) k = .ok .skippedWord) ∧
    (∀ (w : Stmt Nat) (k : Nat → Stmt Unit) (e : PyExc), tryBlock w k = .error e →
      e = .otherError ∧
        (w = .error .otherError ∨ ∃ wid, w = .ok wid ∧ k wid = .error .otherError)) := by
  refine ⟨fun k => rfl, ?_, ?_⟩
  · intro wid k hk
    simp only [tryBlock, hk]
  · intro w k e h
    match w with
    | .error .integrityError =>
      simp only [tryBlock] at h
      exact Except.noConfusion h
    | .error .otherError =>
      simp only [tryBlock] at h
      injection h with h
      exact ⟨h.symm, Or.inl rfl⟩
    | .ok wid =>
      cases hk : k wid with
      | ok u =>
        simp only [tryBlock, hk] at h
        exact Except.noConfusion h
      | error pe =>
        cases pe with
        | integrityError =>
          simp only [tryBlock, hk] at h
          exact Except.noConfusion h
        | otherError =>
          simp only [tryBlock, hk] at h
          injection h with h
          exact ⟨h.symm, Or.inr ⟨wid, rfl, hk⟩⟩

/-- C5 witness: the amended claim at concrete statement outcomes. -/
theorem claim_C5_witness :
    tryBlock (.ok 2) (fun _ => .error .integrityError) = .ok .skippedWord ∧
    (PyExc.otherError = PyExc.otherError ∧
      ((.error .otherError : Stmt Nat) = .error .otherError ∨
        ∃ wid, (.error .otherError : Stmt Nat) = .ok wid ∧
          (fun _ : Nat => (.ok () : Stmt Unit)) wid = .error .otherError)) :=
  ⟨claim_C5_amended.2.1 2 (fun _ => .error .integrityError) rfl,
   claim_C5_amended.2.2 (.error .otherError) (fun _ => .ok ()) .otherError rfl⟩

/-- C4: after ingesting source A from a fresh store and then source B,
where both files contain the word `w`, the Word row for `w` exists exactly
once in the final store, and every word-source link pointing at it names
source A — the skip path of run B records no second source. -/
theorem claim_C4_provenance (linesA linesB : List String) (nameA nameB : String)
    (w lA lB : String)
    (sidA : Nat) (sumA : ImportSummary) (stA : Store)
    (sidB : Nat) (sumB : ImportSummary) (stB : Store)
    (hlA : lA ∈ linesA) (hwA : pyStrip lA = w)
    (hlB : lB ∈ linesB) (hwB : pyStrip lB = w)
    (hne : (pyStrip lA).data.isEmpty = false)
    (h1 : import_words true linesA nameA Store.empty = (.completed sidA sumA, stA))
    (h2 : import_words true linesB nameB stA = (.completed sidB sumB, stB)) :
    (stB.words.map WordRow.sr_cirilica).count w = 1 ∧
    (∀ r ∈ stB.words, r.sr_cirilica = w →
      ∀ p ∈ stB.wordSources, p.1 = r.id → p.2 = sidA) := by
  rw [import_words_true_eq] at h1 h2
  injection h1 with h1a h1b
  injection h1a with h1s h1m
  subst h1s
  obtain ⟨hAsrc, hAnsid, hAle, ⟨wsA, hwsA, hwpA⟩, ⟨lsA, hlsA, hlpA⟩, hndA0⟩ :=
    importLoop_spec
      ((lookupSource (insertOrIgnoreSource Store.empty nameA) nameA).getD 0)
      linesA (insertOrIgnoreSource Store.empty nameA) ⟨0, 0, 0⟩
  rw [h1b] at hlsA hndA0
  have hcontA : containsWord stA w = true := by
    rw [← h1b, ← hwA]
    exact importLoop_contains _ linesA _ ⟨0, 0, 0⟩ hlA hne
  have hwfA : stA.wfWords := by
    rw [← h1b]
    refine importLoop_wfWords _ linesA ⟨0, 0, 0⟩ ?_
    intro r hr
    rw [(insertOrIgnoreSource_words Store.empty nameA).1] at hr
    cases hr
  have hndA : (stA.words.map WordRow.sr_cirilica).Nodup := by
    apply hndA0
    rw [(insertOrIgnoreSource_words Store.empty nameA).1]
    exact List.nodup_nil
  have hlinkA : ∀ p ∈ stA.wordSources,
      p.2 = (lookupSource (insertOrIgnoreSource Store.empty nameA) nameA).getD 0 := by
    intro p hp
    rw [hlsA] at hp
    rcases List.mem_append.mp hp with h' | h'
    · rw [(insertOrIgnoreSource_words Store.empty nameA).2.1] at h'
      cases h'
    · exact (hlpA p h').1
  injection h2 with h2a h2b
  injection h2a with h2s h2m
  obtain ⟨hBsrc, hBnsid, hBle, ⟨wsB, hwsB, hwpB⟩, ⟨lsB, hlsB, hlpB⟩, hndB0⟩ :=
    importLoop_spec
      ((lookupSource (insertOrIgnoreSource stA nameB) nameB).getD 0)
      linesB (insertOrIgnoreSource stA nameB) ⟨0, 0, 0⟩
  rw [h2b] at hwsB hlsB hndB0
  obtain ⟨hBw, hBws, hBnid⟩ := insertOrIgnoreSource_words stA nameB
  have hcontA' : containsWord (insertOrIgnoreSource stA nameB) w = containsWord stA w := by
    unfold containsWord
    rw [hBw]
  constructor
  · have hmemB : w ∈ stB.words.map WordRow.sr_cirilica := by
      rw [hwsB, hBw, List.map_append]
      exact List.mem_append_left _ (containsWord_iff_mem.mp hcontA)
    have hndB : (stB.words.map WordRow.sr_cirilica).Nodup := by
      apply hndB0
      rw [hBw]
      exact hndA
    exact List.count_eq_one_of_mem hndB hmemB
  · intro r hr hrw p hp hpid
    have hrA : r ∈ stA.words := by
      rw [hwsB, hBw] at hr
      rcases List.mem_append.mp hr with h' | h'
      · exact h'
      · have hf := (hwpB r h').2.2
        rw [hrw, hcontA', hcontA] at hf
        exact Bool.noConfusion hf
    have hrid : r.id < stA.nextWordId := hwfA r hrA
    have hpA : p ∈ stA.wordSources := by
      rw [hlsB, hBws] at hp
      rcases List.mem_append.mp hp with h' | h'
      · exact h'
      · have h2' := (hlpB p h').2
        rw [hBnid, hpid] at h2'
        exact absurd h2' (not_le.mpr hrid)
    exact hlinkA p hpA

/-- C4 witness: source `a` with `мама`, then source `b` with `мама` and
`нов`; the word row for `мама` is unique and linked only to source 1. -/
theorem claim_C4_witness :
    (((⟨[⟨1, "a"⟩, ⟨2, "b"⟩],
        [⟨1, "мама", "mama"⟩, ⟨2, "нов", "nov"⟩],
        [(1, 1), (2, 2)], 3, 3⟩ : Store).words.map
          WordRow.sr_cirilica).count "мама" = 1) ∧
    (∀ r ∈ (⟨[⟨1, "a"⟩, ⟨2, "b"⟩],
        [⟨1, "мама", "mama"⟩, ⟨2, "нов", "nov"⟩],
        [(1, 1), (2, 2)], 3, 3⟩ : Store).words, r.sr_cirilica = "мама" →
      ∀ p ∈ (⟨[⟨1, "a"⟩, ⟨2, "b"⟩],
        [⟨1, "мама", "mama"⟩, ⟨2, "нов", "nov"⟩],
        [(1, 1), (2, 2)], 3, 3⟩ : Store).wordSources, p.1 = r.id → p.2 = 1) :=
  claim_C4_provenance ["мама"] ["мама", "нов"] "a" "b" "мама" "мама" "мама"
    1 ⟨1, 1, 0⟩ ⟨[⟨1, "a"⟩], [⟨1, "мама", "mama"⟩], [(1, 1)], 2, 2⟩
    2 ⟨2, 1, 1⟩ ⟨[⟨1, "a"⟩, ⟨2, "b"⟩],
        [⟨1, "мама", "mama"⟩, ⟨2, "нов", "nov"⟩], [(1, 1), (2, 2)], 3, 3⟩
    (by decide) (by decide) (by decide) (by decide) (by decide)
    (by decide) (by decide)

end DictGen
